import Mathlib

/-!
Expert4Control: a shallow embedding of the control library.

Every function of `Expert4Control.c` is transcribed below, statement by statement.

* A C `float` is read as an element of a linearly ordered field `α` with exact
  arithmetic (rounding, infinities and NaN are outside the model).  All
  definitions are computable for `α = ℚ`; the theorems about the real sine are
  stated at `α = ℝ`.
* A function taking a state pointer `T *s` becomes a function from the old
  record to the new record, paired with the returned value when there is one.
* `sin`, `cos` (from `math.h`) and the constant `PI` (from `MacroDefine.h`,
  which is not part of the sources) are parameters of the functions using them.
* `fmod` and the cast `(int)` follow the C standard: truncation towards zero.  The
  cast is defined only when the truncated value fits in an `int` of `w` bits; outside
  that range the behaviour is undefined and the model returns `none`.
-/

namespace Expert4Control

variable {α : Type} [LinearOrderedField α]

/-! ## Constants and records of `Expert4Control.h` -/

/-- Integration method tag `BACKWARD_EULER`. -/
def BACKWARD_EULER : Int := 0

/-- Integration method tag `FORWARD_EULER`. -/
def FORWARD_EULER : Int := 1

/-- Integration method tag `TRAPEZOIDAL`. -/
def TRAPEZOIDAL : Int := 2

/-- Record `Exp4FRA`: management structure of the FRA signal generator. -/
structure Exp4FRA (α : Type) where
  fmin : α
  fmax : α
  fstep : α
  Ni : α
  Au : α
  Bu : α
  Tsta : α
  isEnd : Bool
  f : α
  tini : α

/-- Record `Exp4PICont`: limit deviation, previous input, previous output, period. -/
structure Exp4PICont (α : Type) where
  rl : α
  uZ1 : α
  yZ1 : α
  Ts : α

/-- Record `Exp4Diff`: previous input, previous output, period. -/
structure Exp4Diff (α : Type) where
  uZ1 : α
  yZ1 : α
  Ts : α

/-- Record `Exp4Int`: previous input, previous output, period, method tag. -/
structure Exp4Int (α : Type) where
  uZ1 : α
  yZ1 : α
  Ts : α
  type : Int

/-- Record `Exp4TimeCounter`: tick counter (`unsigned long`) and elapsed time. -/
structure Exp4TimeCounter (α : Type) where
  count : Nat
  time : α

/-! ## C library helpers -/

/-- Truncation of a floating value towards zero: the fractional part is discarded. -/
def truncInt [FloorRing α] (x : α) : Int :=
  if 0 ≤ x then Int.floor x else Int.ceil x

/-- The C conversion `(int)x` for an `int` of `w` bits: the fractional part is discarded,
and the result is defined only if it lies in `[-2^(w-1), 2^(w-1) - 1]`. -/
def castInt [FloorRing α] (w : Nat) (x : α) : Option Int :=
  if -((2 : Int) ^ (w - 1)) ≤ truncInt x ∧ truncInt x ≤ (2 : Int) ^ (w - 1) - 1 then
    some (truncInt x)
  else none

/-- The C library `fmod(x, y)`: `x - n*y` with `n` the quotient `x/y` truncated towards zero. -/
def fmod [FloorRing α] (x y : α) : α :=
  x - (truncInt (x / y) : α) * y

/-! ## Waveform generators -/

/-- Function `SquareWave`. -/
def SquareWave (sinF : α → α) (PI : α) (freq phase time : α) : α :=
  let r := sinF (2 * PI * freq * time + phase)
  if 0 < r then 1 else -1

/-- Function `StairsWave`; `w` is the bit width of `int`.  The result is `none` when the
cast `(int)((Time-Tini)/Tstp)` is out of range, where C leaves the behaviour undefined. -/
def StairsWave [FloorRing α] (w : Nat) (Time Tini Ystp Tstp Nstp : α) : Option α :=
  match castInt w ((Time - Tini) / Tstp) with
  | none => none
  | some n => some (if (n : α) ≤ Nstp then Ystp * (n : α) else 0)

/-- Function `TriangleWave`. -/
def TriangleWave [FloorRing α] (freq time : α) : α :=
  let Tp : α := 1 / freq
  let a : α := 2 / Tp
  let t : α := fmod time Tp
  let y : α := if 0 ≤ t ∧ t < Tp / 2 then a * t else -a * t + 2
  2 * y - 1

/-! ## FRA signal generator -/

/-- Function `FRA_Init`. -/
def FRA_Init (fra : Exp4FRA α) (FreqMin FreqMax FreqStep NumIntg Ampl Bias TimeSta : α) :
    Exp4FRA α :=
  let fra := { fra with fmin := FreqMin }
  let fra := { fra with fmax := FreqMax }
  let fra := { fra with fstep := FreqStep }
  let fra := { fra with Ni := NumIntg }
  let fra := { fra with Au := Ampl }
  let fra := { fra with Bu := Bias }
  let fra := { fra with Tsta := TimeSta }
  let fra := { fra with isEnd := false }
  let fra := { fra with f := fra.fmin }
  { fra with tini := 0 }

/-- Function `FRA_GetSignal`: returns `(outsig, out_freq, fra)`. -/
def FRA_GetSignal (cosF : α → α) (PI : α) (fra : Exp4FRA α) (t : α) : α × α × Exp4FRA α :=
  if fra.Tsta ≤ t ∧ fra.isEnd = false then
    let outsig := fra.Au * cosF (2 * PI * fra.f * (t - fra.tini - fra.Tsta)) + fra.Bu
    if fra.Ni / fra.f ≤ t - fra.tini - fra.Tsta then
      if fra.f ≤ fra.fmax then
        let fra1 := { fra with tini := t - fra.Tsta }
        let fra2 := { fra1 with f := fra1.f + fra1.fstep }
        (outsig, fra2.f, fra2)
      else
        let fra1 := { fra with isEnd := true }
        (outsig, fra1.f, fra1)
    else
      (outsig, fra.f, fra)
  else
    (fra.Bu, fra.f, fra)

/-! ## Limiters -/

/-- Function `Limiter1`. -/
def Limiter1 (input limit : α) : α :=
  let input := if limit < input then limit else input
  let input := if input < -limit then -limit else input
  input

/-- Function `Limiter2`: returns the limited value and the record with `rl` written. -/
def Limiter2 (s : Exp4PICont α) (input limit : α) : α × Exp4PICont α :=
  let nolim := input
  let lim := Limiter1 nolim limit
  (lim, { s with rl := lim - nolim })

/-! ## Differentiators and integrator -/

/-- Function `InitDiff`. -/
def InitDiff (s : Exp4Diff α) (Ts : α) : Exp4Diff α :=
  { s with uZ1 := 0, yZ1 := 0, Ts := Ts }

/-- Function `PseudoDiff2` (bilinear transform, with low-pass filter). -/
def PseudoDiff2 (s : Exp4Diff α) (input gpd : α) : α × Exp4Diff α :=
  let y := (2 * gpd * (input - s.uZ1) + (2 - s.Ts * gpd) * s.yZ1) / (2 + s.Ts * gpd)
  (y, { s with uZ1 := input, yZ1 := y })

/-- Function `Integrator`: the `switch` on the method tag, then the state update. -/
def Integrator (s : Exp4Int α) (input : α) : α × Exp4Int α :=
  let y :=
    if s.type = FORWARD_EULER then s.Ts * s.uZ1 + s.yZ1
    else if s.type = BACKWARD_EULER then s.Ts * input + s.yZ1
    else if s.type = TRAPEZOIDAL then s.Ts / 2 * (input + s.uZ1) + s.yZ1
    else s.Ts * input + s.yZ1
  (y, { s with uZ1 := input, yZ1 := y })

/-! ## PI controller -/

/-- Function `InitPIcont`. -/
def InitPIcont (s : Exp4PICont α) (Ts : α) : Exp4PICont α :=
  { s with rl := 0, uZ1 := 0, yZ1 := 0, Ts := Ts }

/-- Function `GetPIcont` (PI controller with anti-windup). -/
def GetPIcont (s : Exp4PICont α) (u Kp Ki : α) : α × Exp4PICont α :=
  let cor_Ki := if s.rl ≠ 0 then 0 else Ki
  let y := (Kp + (s.Ts * cor_Ki) / 2) * u + ((s.Ts * cor_Ki) / 2 - Kp) * s.uZ1 + s.yZ1
  (y, { s with uZ1 := u, yZ1 := y })

/-! ## Time counter -/

/-- Function `InitTimeCounter`. -/
def InitTimeCounter (s : Exp4TimeCounter α) : Exp4TimeCounter α :=
  { s with count := 0, time := 0 }

/-- Function `GetElapsedTime`; `w` is the bit width of `unsigned long`, the
increment wraps modulo `2 ^ w`. -/
def GetElapsedTime (w : Nat) (s : Exp4TimeCounter α) (Ts : α) : Exp4TimeCounter α :=
  let s1 := { s with time := (s.count : α) * Ts }
  { s1 with count := (s1.count + 1) % 2 ^ w }

/-! ## Running a step function over an input sequence -/

/-- Outputs of successive `GetPIcont` calls on the inputs `us`, starting in state `s`. -/
def PIcontOutputs (s : Exp4PICont α) (Kp Ki : α) : List α → List α
  | [] => []
  | u :: us => (GetPIcont s u Kp Ki).1 :: PIcontOutputs (GetPIcont s u Kp Ki).2 Kp Ki us

/-- State of the FRA generator after successive `FRA_GetSignal` calls at the times `ts`. -/
def FRA_Run (cosF : α → α) (PI : α) (fra : Exp4FRA α) : List α → Exp4FRA α
  | [] => fra
  | t :: ts => FRA_Run cosF PI (FRA_GetSignal cosF PI fra t).2.2 ts

/-- Signals returned by successive `FRA_GetSignal` calls at the times `ts`. -/
def FRA_Outputs (cosF : α → α) (PI : α) (fra : Exp4FRA α) : List α → List α
  | [] => []
  | t :: ts =>
    (FRA_GetSignal cosF PI fra t).1 :: FRA_Outputs cosF PI (FRA_GetSignal cosF PI fra t).2.2 ts

/-- State of the time counter after `n` successive `GetElapsedTime` calls. -/
def TimeCounterRun (w : Nat) (Ts : α) : Nat → Exp4TimeCounter α → Exp4TimeCounter α
  | 0, s => s
  | n + 1, s => GetElapsedTime w (TimeCounterRun w Ts n s) Ts

/-! ## Limiter theorems -/

/-- Unconditional form of the clamp: second step applied to the first. -/
theorem Limiter1_eq_ite (input limit : α) :
    Limiter1 input limit =
      if (if limit < input then limit else input) < -limit then -limit
      else (if limit < input then limit else input) := rfl

/-- The clamp returns its input exactly on `[-limit, limit]`, for `limit ≥ 0`. -/
theorem Limiter1_eq_self_iff (input limit : α) (h : 0 ≤ limit) :
    Limiter1 input limit = input ↔ -limit ≤ input ∧ input ≤ limit := by
  rw [Limiter1_eq_ite]
  constructor
  · intro e
    split_ifs at e with h1 h2 h2 <;> constructor <;> linarith
  · rintro ⟨h1, h2⟩
    rw [if_neg (not_lt.mpr h2), if_neg (not_lt.mpr h1)]

/-- C1: for `limit ≥ 0`, `Limiter1 input limit` is `max (-limit) (min input limit)`, it
lies in `[-limit, limit]`, and it equals `input` exactly when `-limit ≤ input ≤ limit`;
`Limiter1 5 3 = 3`, `Limiter1 (-5) 3 = -3`, `Limiter1 2 3 = 2`. -/
theorem Limiter1_clamp (input limit : α) (h : 0 ≤ limit) :
    Limiter1 input limit = max (-limit) (min input limit) ∧
    -limit ≤ Limiter1 input limit ∧ Limiter1 input limit ≤ limit ∧
    (Limiter1 input limit = input ↔ -limit ≤ input ∧ input ≤ limit) ∧
    Limiter1 (5 : α) 3 = 3 ∧ Limiter1 (-5 : α) 3 = -3 ∧ Limiter1 (2 : α) 3 = 2 := by
  refine ⟨?_, ?_, ?_, ?_, ?_, ?_, ?_⟩
  · rw [Limiter1_eq_ite]
    by_cases h1 : limit < input
    · have h2 : ¬ limit < -limit := by linarith
      rw [if_pos h1, if_neg h2, min_eq_right h1.le, max_eq_right (by linarith)]
    · rw [if_neg h1, min_eq_left (not_lt.mp h1)]
      by_cases h2 : input < -limit
      · rw [if_pos h2, max_eq_left h2.le]
      · rw [if_neg h2, max_eq_right (not_lt.mp h2)]
  · rw [Limiter1_eq_ite]
    split_ifs <;> linarith
  · rw [Limiter1_eq_ite]
    split_ifs <;> linarith
  · exact Limiter1_eq_self_iff input limit h
  · rw [Limiter1_eq_ite]; norm_num
  · rw [Limiter1_eq_ite]; norm_num
  · rw [Limiter1_eq_ite]; norm_num

/-- Witness of C1 at input `5`, limit `3` over the rationals. -/
theorem Limiter1_clamp_witness :
    (0 : ℚ) ≤ 3 ∧ Limiter1 (5 : ℚ) 3 = max (-3) (min 5 3) ∧ Limiter1 (5 : ℚ) 3 = 3 :=
  ⟨by norm_num, (Limiter1_clamp (5 : ℚ) 3 (by norm_num)).1,
    (Limiter1_clamp (5 : ℚ) 3 (by norm_num)).2.2.2.2.1⟩

/-- Idempotence of the clamp for any limit, negative ones included. -/
theorem Limiter1_idem (x L : α) : Limiter1 (Limiter1 x L) L = Limiter1 x L := by
  simp only [Limiter1_eq_ite]
  split_ifs <;> rfl

/-- C2: `Limiter1` is idempotent: for `L ≥ 0`,
`Limiter1 (Limiter1 x L) L = Limiter1 x L`. -/
theorem Limiter1_idempotent (x L : α) (_h : 0 ≤ L) :
    Limiter1 (Limiter1 x L) L = Limiter1 x L :=
  Limiter1_idem x L

/-- Witness of C2 at `x = 5`, `L = 3` over the rationals. -/
theorem Limiter1_idempotent_witness :
    (0 : ℚ) ≤ 3 ∧ Limiter1 (Limiter1 (5 : ℚ) 3) 3 = Limiter1 (5 : ℚ) 3 :=
  ⟨by norm_num, Limiter1_idempotent (5 : ℚ) 3 (by norm_num)⟩

/-- C3: for `limit ≥ 0`, `Limiter2 s input limit` returns `Limiter1 input limit` and
writes `rl = returned value - input`, so `rl = 0` exactly when `-limit ≤ input ≤ limit`;
`uZ1`, `yZ1`, `Ts` are unchanged; input `5`, limit `3` gives output `3` and `rl = -2`. -/
theorem Limiter2_spec (s : Exp4PICont α) (input limit : α) (h : 0 ≤ limit) :
    (Limiter2 s input limit).1 = Limiter1 input limit ∧
    (Limiter2 s input limit).2.rl = (Limiter2 s input limit).1 - input ∧
    ((Limiter2 s input limit).2.rl = 0 ↔ -limit ≤ input ∧ input ≤ limit) ∧
    (Limiter2 s input limit).2.uZ1 = s.uZ1 ∧
    (Limiter2 s input limit).2.yZ1 = s.yZ1 ∧
    (Limiter2 s input limit).2.Ts = s.Ts ∧
    (Limiter2 s 5 3).1 = 3 ∧ (Limiter2 s 5 3).2.rl = -2 := by
  refine ⟨rfl, rfl, ?_, rfl, rfl, rfl, ?_, ?_⟩
  · show Limiter1 input limit - input = 0 ↔ _
    rw [sub_eq_zero]
    exact Limiter1_eq_self_iff input limit h
  · show Limiter1 (5 : α) 3 = 3
    rw [Limiter1_eq_ite]; norm_num
  · show Limiter1 (5 : α) 3 - 5 = -2
    rw [Limiter1_eq_ite]; norm_num

/-- Witness of C3 at input `5`, limit `3` from the state `(rl, uZ1, yZ1, Ts) = (7, 8, 9, 10)`. -/
theorem Limiter2_spec_witness :
    (0 : ℚ) ≤ 3 ∧ (Limiter2 (⟨7, 8, 9, 10⟩ : Exp4PICont ℚ) 5 3).1 = 3 ∧
    (Limiter2 (⟨7, 8, 9, 10⟩ : Exp4PICont ℚ) 5 3).2.rl = -2 :=
  ⟨by norm_num, (Limiter2_spec (⟨7, 8, 9, 10⟩ : Exp4PICont ℚ) 5 3 (by norm_num)).2.2.2.2.2.2.1,
    (Limiter2_spec (⟨7, 8, 9, 10⟩ : Exp4PICont ℚ) 5 3 (by norm_num)).2.2.2.2.2.2.2⟩

/-! ## PI controller theorems -/

/-- A saturated limiter call leaves a nonzero `rl`. -/
theorem Limiter2_rl_ne_zero (s : Exp4PICont α) (input limit : α) (hl : 0 ≤ limit)
    (hsat : limit < |input|) : (Limiter2 s input limit).2.rl ≠ 0 := by
  intro e
  have hb : -limit ≤ input ∧ input ≤ limit := by
    have e1 : Limiter1 input limit - input = 0 := e
    exact (Limiter1_eq_self_iff input limit hl).mp (sub_eq_zero.mp e1)
  exact absurd (abs_le.mpr hb) (not_le.mpr hsat)

/-- With a nonzero `rl` the controller step does not read `Ki`. -/
theorem GetPIcont_of_rl_ne (s : Exp4PICont α) (u Kp Ki : α) (h : s.rl ≠ 0) :
    GetPIcont s u Kp Ki =
      (Kp * (u - s.uZ1) + s.yZ1, { s with uZ1 := u, yZ1 := Kp * (u - s.uZ1) + s.yZ1 }) := by
  have e : (Kp + (s.Ts * 0) / 2) * u + ((s.Ts * 0) / 2 - Kp) * s.uZ1 + s.yZ1
      = Kp * (u - s.uZ1) + s.yZ1 := by ring
  simp only [GetPIcont, if_pos h, e]

/-- C4: anti-windup coupling. For `limit ≥ 0` and `|input| > limit`, the `GetPIcont`
call following `Limiter2 s input limit` gives the same value and the same state for
all `Ki1`, `Ki2`, and the value is `Kp * (u - s.uZ1) + s.yZ1`. -/
theorem GetPIcont_after_saturation (s : Exp4PICont α) (input limit u Kp Ki1 Ki2 : α)
    (hl : 0 ≤ limit) (hsat : limit < |input|) :
    GetPIcont (Limiter2 s input limit).2 u Kp Ki1
      = GetPIcont (Limiter2 s input limit).2 u Kp Ki2 ∧
    (GetPIcont (Limiter2 s input limit).2 u Kp Ki1).1 = Kp * (u - s.uZ1) + s.yZ1 := by
  have hne := Limiter2_rl_ne_zero s input limit hl hsat
  constructor
  · rw [GetPIcont_of_rl_ne _ u Kp Ki1 hne, GetPIcont_of_rl_ne _ u Kp Ki2 hne]
  · rw [GetPIcont_of_rl_ne _ u Kp Ki1 hne]
    rfl

/-- Witness of C4: input `5`, limit `3`, then a step with `u = 2`, `Kp = 1`, `Ki` `4` or `6`. -/
theorem GetPIcont_after_saturation_witness :
    (0 : ℚ) ≤ 3 ∧ (3 : ℚ) < |5| ∧
    GetPIcont (Limiter2 (⟨0, 8, 9, 10⟩ : Exp4PICont ℚ) 5 3).2 2 1 4
      = GetPIcont (Limiter2 (⟨0, 8, 9, 10⟩ : Exp4PICont ℚ) 5 3).2 2 1 6 ∧
    (GetPIcont (Limiter2 (⟨0, 8, 9, 10⟩ : Exp4PICont ℚ) 5 3).2 2 1 4).1 = 1 * (2 - 8) + 9 :=
  ⟨by norm_num, by norm_num [abs_of_pos],
    GetPIcont_after_saturation (⟨0, 8, 9, 10⟩ : Exp4PICont ℚ) 5 3 2 1 4 6 (by norm_num)
      (by norm_num [abs_of_pos])⟩

/-- C5: `GetPIcont s u Kp Ki` returns `y = (Kp + Ts*K/2)*u + (Ts*K/2 - Kp)*s.uZ1 + s.yZ1`
with `K = 0` if `s.rl ≠ 0` and `K = Ki` otherwise; afterwards `uZ1 = u`, `yZ1 = y`, and
`rl`, `Ts` are unchanged; after `InitPIcont` with `Ts = 1`, `Kp = Ki = 1` and constant
input `1` give `y1 = 3/2`, `y2 = 5/2`. -/
theorem GetPIcont_spec (s : Exp4PICont α) (u Kp Ki : α) :
    (GetPIcont s u Kp Ki).1
      = (Kp + s.Ts * (if s.rl ≠ 0 then 0 else Ki) / 2) * u
        + (s.Ts * (if s.rl ≠ 0 then 0 else Ki) / 2 - Kp) * s.uZ1 + s.yZ1 ∧
    (GetPIcont s u Kp Ki).2.uZ1 = u ∧
    (GetPIcont s u Kp Ki).2.yZ1 = (GetPIcont s u Kp Ki).1 ∧
    (GetPIcont s u Kp Ki).2.rl = s.rl ∧
    (GetPIcont s u Kp Ki).2.Ts = s.Ts ∧
    PIcontOutputs (InitPIcont s 1) 1 1 [1, 1] = [3 / 2, 5 / 2] := by
  refine ⟨rfl, rfl, rfl, rfl, rfl, ?_⟩
  simp only [PIcontOutputs, GetPIcont, InitPIcont]
  norm_num

/-! ## Integrator theorems -/

/-- C7: `Integrator s input` returns `Ts*uZ1 + yZ1` for `FORWARD_EULER`,
`(Ts/2)*(input + uZ1) + yZ1` for `TRAPEZOIDAL`, and `Ts*input + yZ1` for
`BACKWARD_EULER` or any other tag; it then sets `uZ1 = input`, `yZ1 = y` and leaves
`Ts` and `type` unchanged. -/
theorem Integrator_spec (s : Exp4Int α) (input : α) :
    (s.type = FORWARD_EULER → (Integrator s input).1 = s.Ts * s.uZ1 + s.yZ1) ∧
    (s.type = TRAPEZOIDAL → (Integrator s input).1 = s.Ts / 2 * (input + s.uZ1) + s.yZ1) ∧
    (s.type ≠ FORWARD_EULER → s.type ≠ TRAPEZOIDAL →
      (Integrator s input).1 = s.Ts * input + s.yZ1) ∧
    (s.type ≠ FORWARD_EULER → s.type ≠ TRAPEZOIDAL →
      (Integrator s input).1 = (Integrator { s with type := BACKWARD_EULER } input).1) ∧
    (Integrator s input).2.uZ1 = input ∧
    (Integrator s input).2.yZ1 = (Integrator s input).1 ∧
    (Integrator s input).2.Ts = s.Ts ∧
    (Integrator s input).2.type = s.type := by
  refine ⟨?_, ?_, ?_, ?_, rfl, rfl, rfl, rfl⟩
  · intro h
    simp only [Integrator, if_pos h]
  · intro h
    have h1 : s.type ≠ FORWARD_EULER := by rw [h]; decide
    have h2 : s.type ≠ BACKWARD_EULER := by rw [h]; decide
    simp only [Integrator, if_neg h1, if_neg h2, if_pos h]
  · intro h1 h2
    simp only [Integrator, if_neg h1, if_neg h2]
    split_ifs <;> rfl
  · intro h1 h2
    have h0 : BACKWARD_EULER ≠ FORWARD_EULER := by decide
    simp only [Integrator, if_neg h1, if_neg h2, if_neg h0]
    split_ifs <;> rfl

/-- Witness of C7: one call per method tag (`1`, `2`, `0` and the unrecognised `7`)
from the state `uZ1 = 3`, `yZ1 = 5`, `Ts = 2` with input `4`. -/
theorem Integrator_spec_witness :
    (Integrator (⟨3, 5, 2, 1⟩ : Exp4Int ℚ) 4).1 = 2 * 3 + 5 ∧
    (Integrator (⟨3, 5, 2, 2⟩ : Exp4Int ℚ) 4).1 = 2 / 2 * (4 + 3) + 5 ∧
    (Integrator (⟨3, 5, 2, 0⟩ : Exp4Int ℚ) 4).1 = 2 * 4 + 5 ∧
    (Integrator (⟨3, 5, 2, 7⟩ : Exp4Int ℚ) 4).1 = 2 * 4 + 5 :=
  ⟨(Integrator_spec (⟨3, 5, 2, 1⟩ : Exp4Int ℚ) 4).1 rfl,
    (Integrator_spec (⟨3, 5, 2, 2⟩ : Exp4Int ℚ) 4).2.1 rfl,
    (Integrator_spec (⟨3, 5, 2, 0⟩ : Exp4Int ℚ) 4).2.2.1 (by decide) (by decide),
    (Integrator_spec (⟨3, 5, 2, 7⟩ : Exp4Int ℚ) 4).2.2.1 (by decide) (by decide)⟩

/-- C9 fails as stated: at `freq = 1`, `phase = 0`, `time = 0` the sine is `0`, which is
`≥ 0`, yet `SquareWave` returns `-1`, not `+1`. -/
theorem SquareWave_zero_sine_counterexample :
    0 ≤ Real.sin (2 * Real.pi * 1 * 0 + 0) ∧
    SquareWave Real.sin Real.pi 1 0 0 = -1 ∧
    SquareWave Real.sin Real.pi 1 0 0 ≠ 1 := by
  have h : SquareWave Real.sin Real.pi 1 0 0 = -1 := by
    simp [SquareWave]
  refine ⟨by simp, h, ?_⟩
  rw [h]; norm_num

/-- C9 (amended): `SquareWave` returns `+1` when `sin(2*PI*freq*time + phase) > 0` and `-1`
otherwise; where the sine is exactly zero the output is `-1`, and with the real sine
`SquareWave f 0 0 = -1` for every `f`. -/
theorem SquareWave_spec (sinF : α → α) (PI freq phase time : α) :
    SquareWave sinF PI freq phase time
      = (if 0 < sinF (2 * PI * freq * time + phase) then 1 else -1) ∧
    (sinF (2 * PI * freq * time + phase) = 0 → SquareWave sinF PI freq phase time = -1) ∧
    (∀ f : ℝ, SquareWave Real.sin Real.pi f 0 0 = -1) := by
  refine ⟨rfl, ?_, ?_⟩
  · intro h
    simp only [SquareWave, h, lt_irrefl, if_false]
  · intro f
    simp [SquareWave]

/-- Witness of C9 (amended) with the real sine at `freq = 1`, `phase = 0`, `time = 0`. -/
theorem SquareWave_spec_witness :
    Real.sin (2 * Real.pi * 1 * 0 + 0) = 0 ∧ SquareWave Real.sin Real.pi 1 0 0 = -1 :=
  ⟨by simp, (SquareWave_spec Real.sin Real.pi 1 0 0).2.1 (by simp)⟩

/-- For a nonnegative quotient the C truncation is the floor. -/
theorem truncInt_of_nonneg [FloorRing α] (x : α) (h : 0 ≤ x) : truncInt x = Int.floor x := by
  simp only [truncInt, if_pos h]

/-- For a negative quotient the C truncation is the ceiling. -/
theorem truncInt_of_neg [FloorRing α] (x : α) (h : x < 0) : truncInt x = Int.ceil x := by
  simp only [truncInt, if_neg (not_le.mpr h)]

/-- `fmod` of a nonnegative value by a positive one lies in `[0, y)`. -/
theorem fmod_bounds_of_nonneg [FloorRing α] (x y : α) (hx : 0 ≤ x) (hy : 0 < y) :
    0 ≤ fmod x y ∧ fmod x y < y := by
  have hq : 0 ≤ x / y := div_nonneg hx hy.le
  have e : x = x / y * y := by field_simp
  have h1 : ((Int.floor (x / y) : Int) : α) ≤ x / y := Int.floor_le _
  have h2 : x / y < ((Int.floor (x / y) : Int) : α) + 1 := Int.lt_floor_add_one _
  simp only [fmod, truncInt_of_nonneg _ hq]
  constructor
  · have := mul_le_mul_of_nonneg_right h1 hy.le
    linarith
  · have := mul_lt_mul_of_pos_right h2 hy
    linarith

/-- Values of `TriangleWave` at `freq = 1`: `-1` at `0`, `0` at `1/4`, `+1` at `1/2`. -/
theorem TriangleWave_values :
    TriangleWave (1 : ℚ) 0 = -1 ∧ TriangleWave (1 : ℚ) (1 / 4) = 0 ∧
    TriangleWave (1 : ℚ) (1 / 2) = 1 := by
  have f0 : Int.floor ((0 : ℚ) / (1 / 1)) = 0 := by
    rw [Int.floor_eq_iff]; norm_num
  have f1 : Int.floor ((1 / 4 : ℚ) / (1 / 1)) = 0 := by
    rw [Int.floor_eq_iff]; norm_num
  have f2 : Int.floor ((1 / 2 : ℚ) / (1 / 1)) = 0 := by
    rw [Int.floor_eq_iff]; norm_num
  refine ⟨?_, ?_, ?_⟩
  · simp only [TriangleWave, fmod, truncInt_of_nonneg ((0 : ℚ) / (1 / 1)) (by norm_num), f0]
    norm_num
  · simp only [TriangleWave, fmod, truncInt_of_nonneg ((1 / 4 : ℚ) / (1 / 1)) (by norm_num), f1]
    norm_num
  · simp only [TriangleWave, fmod, truncInt_of_nonneg ((1 / 2 : ℚ) / (1 / 1)) (by norm_num), f2]
    norm_num

/-- For `freq > 0` and `time ≥ 0`, `TriangleWave freq time` lies in `[-1, +1]`. -/
theorem TriangleWave_bounds_of_nonneg [FloorRing α] (freq time : α) (hf : 0 < freq)
    (ht : 0 ≤ time) : -1 ≤ TriangleWave freq time ∧ TriangleWave freq time ≤ 1 := by
  have hTp : 0 < 1 / freq := one_div_pos.mpr hf
  obtain ⟨h0, h1⟩ := fmod_bounds_of_nonneg time (1 / freq) ht hTp
  have ha : 2 / (1 / freq) = 2 * freq := by field_simp
  have hm : fmod time (1 / freq) * freq < 1 := by
    have := mul_lt_mul_of_pos_right h1 hf
    rwa [one_div_mul_cancel hf.ne'] at this
  have hm0 : 0 ≤ fmod time (1 / freq) * freq := mul_nonneg h0 hf.le
  simp only [TriangleWave, ha]
  split_ifs with hc
  · have hc2 : fmod time (1 / freq) * freq < 1 / 2 := by
      have := mul_lt_mul_of_pos_right hc.2 hf
      have e : 1 / freq / 2 * freq = 1 / 2 := by field_simp
      rwa [e] at this
    constructor <;> nlinarith
  · have hc2 : 1 / 2 ≤ fmod time (1 / freq) * freq := by
      have hc' : 1 / freq / 2 ≤ fmod time (1 / freq) := by
        by_contra hlt
        exact hc ⟨h0, not_le.mp hlt⟩
      have := mul_le_mul_of_nonneg_right hc' hf.le
      have e : 1 / freq / 2 * freq = 1 / 2 := by field_simp
      rwa [e] at this
    constructor <;> nlinarith

/-- C10 (failing input): at `freq = 1`, `time = -1/4` the C remainder is `-1/4`, the test
`0 ≤ t` fails, the falling branch gives `y = 5/2`, and `TriangleWave` returns `4`, outside
`[-1, +1]`. -/
theorem TriangleWave_negative_time :
    fmod (-1 / 4 : ℚ) (1 / 1) = -1 / 4 ∧ TriangleWave (1 : ℚ) (-1 / 4) = 4 ∧
    ¬ (TriangleWave (1 : ℚ) (-1 / 4) ≤ 1) := by
  have c0 : Int.ceil ((-1 / 4 : ℚ) / (1 / 1)) = 0 := by
    rw [Int.ceil_eq_iff]; norm_num
  have hf : fmod (-1 / 4 : ℚ) (1 / 1) = -1 / 4 := by
    simp only [fmod, truncInt_of_neg ((-1 / 4 : ℚ) / (1 / 1)) (by norm_num), c0]
    norm_num
  have hT : TriangleWave (1 : ℚ) (-1 / 4) = 4 := by
    simp only [TriangleWave, hf]
    norm_num
  refine ⟨hf, hT, ?_⟩
  rw [hT]; norm_num

/-- On nonnegative times, `fmod` by the period is unchanged by adding one period. -/
theorem fmod_add_period_of_nonneg [FloorRing α] (x y : α) (hx : 0 ≤ x) (hy : 0 < y) :
    fmod (x + y) y = fmod x y := by
  have hq : 0 ≤ x / y := div_nonneg hx hy.le
  have e : (x + y) / y = x / y + 1 := by field_simp
  have hq1 : 0 ≤ (x + y) / y := by rw [e]; linarith
  simp only [fmod, truncInt_of_nonneg _ hq, truncInt_of_nonneg _ hq1]
  rw [e, Int.floor_add_one]
  push_cast
  ring

/-- For `freq > 0` and `time ≥ 0`, `TriangleWave` has period `1 / freq`. -/
theorem TriangleWave_periodic_of_nonneg [FloorRing α] (freq time : α) (hf : 0 < freq)
    (ht : 0 ≤ time) : TriangleWave freq (time + 1 / freq) = TriangleWave freq time := by
  simp only [TriangleWave, fmod_add_period_of_nonneg time (1 / freq) ht (one_div_pos.mpr hf)]

/-- C11 (failing input): at `freq = 1`, `time = -1/4` the value is `4`, while one period
later, at `time + 1/freq = 3/4`, it is `0`. -/
theorem TriangleWave_period_negative_time :
    TriangleWave (1 : ℚ) (-1 / 4) = 4 ∧ TriangleWave (1 : ℚ) (-1 / 4 + 1 / 1) = 0 ∧
    TriangleWave (1 : ℚ) (-1 / 4 + 1 / 1) ≠ TriangleWave (1 : ℚ) (-1 / 4) := by
  have c0 : Int.ceil ((-1 / 4 : ℚ) / (1 / 1)) = 0 := by
    rw [Int.ceil_eq_iff]; norm_num
  have f0 : Int.floor ((-1 / 4 + 1 / 1 : ℚ) / (1 / 1)) = 0 := by
    rw [Int.floor_eq_iff]; norm_num
  have h1 : TriangleWave (1 : ℚ) (-1 / 4) = 4 := by
    simp only [TriangleWave, fmod, truncInt_of_neg ((-1 / 4 : ℚ) / (1 / 1)) (by norm_num), c0]
    norm_num
  have h2 : TriangleWave (1 : ℚ) (-1 / 4 + 1 / 1) = 0 := by
    simp only [TriangleWave, fmod,
      truncInt_of_nonneg ((-1 / 4 + 1 / 1 : ℚ) / (1 / 1)) (by norm_num), f0]
    norm_num
  refine ⟨h1, h2, ?_⟩
  rw [h1, h2]; norm_num

/-- A quotient strictly between `-2^(w-1) - 1` and `2^(w-1)` is in the range of the cast:
`castInt` is defined and is the truncation. -/
theorem castInt_of_in_range [FloorRing α] (w : Nat) (x : α)
    (hlo : -((2 : α) ^ (w - 1)) - 1 < x) (hhi : x < (2 : α) ^ (w - 1)) :
    castInt w x = some (truncInt x) := by
  have hp : (1 : Int) ≤ (2 : Int) ^ (w - 1) := one_le_pow₀ (by norm_num)
  have hr : -((2 : Int) ^ (w - 1)) ≤ truncInt x ∧ truncInt x ≤ (2 : Int) ^ (w - 1) - 1 := by
    by_cases hx : 0 ≤ x
    · rw [truncInt_of_nonneg x hx]
      have h0 : 0 ≤ Int.floor x := Int.floor_nonneg.mpr hx
      have h1 : Int.floor x < (2 : Int) ^ (w - 1) := by
        rw [Int.floor_lt]
        push_cast
        exact hhi
      constructor <;> omega
    · have hx1 : x < 0 := not_le.mp hx
      rw [truncInt_of_neg x hx1]
      have h0 : Int.ceil x ≤ 0 := by
        rw [Int.ceil_le]
        push_cast
        exact hx1.le
      have h1 : -((2 : Int) ^ (w - 1)) - 1 < Int.ceil x := by
        rw [Int.lt_ceil]
        push_cast
        exact hlo
      constructor <;> omega
  simp only [castInt, if_pos hr]

/-- C12 fails as stated: at `time = -1/2`, `tini = 0`, `Ystp = 1`, `Tstp = 1`, `Nstp = 3`
the floor of the quotient is `-1 ≤ 3`, so the claim gives `Ystp * (-1) = -1`, but the cast
`(int)(-0.5)` is `0` (in range for a 32-bit `int`) and `StairsWave` returns `0`. -/
theorem StairsWave_floor_counterexample :
    (1 : ℚ) ≠ 0 ∧ Int.floor ((-1 / 2 - 0 : ℚ) / 1) = -1 ∧
    ((Int.floor ((-1 / 2 - 0 : ℚ) / 1) : Int) : ℚ) ≤ 3 ∧
    StairsWave 32 (-1 / 2 : ℚ) 0 1 1 3 = some 0 ∧
    StairsWave 32 (-1 / 2 : ℚ) 0 1 1 3
      ≠ some (1 * ((Int.floor ((-1 / 2 - 0 : ℚ) / 1) : Int) : ℚ)) := by
  have fl : Int.floor ((-1 / 2 - 0 : ℚ) / 1) = -1 := by
    rw [Int.floor_eq_iff]; norm_num
  have cl : Int.ceil ((-1 / 2 - 0 : ℚ) / 1) = 0 := by
    rw [Int.ceil_eq_iff]; norm_num
  have hS : StairsWave 32 (-1 / 2 : ℚ) 0 1 1 3 = some 0 := by
    simp only [StairsWave,
      castInt_of_in_range 32 ((-1 / 2 - 0 : ℚ) / 1) (by norm_num) (by norm_num),
      truncInt_of_neg ((-1 / 2 - 0 : ℚ) / 1) (by norm_num), cl]
    norm_num
  refine ⟨by norm_num, fl, ?_, hS, ?_⟩
  · rw [fl]; norm_num
  · rw [hS, fl]; norm_num

/-- Out of the range of a 32-bit `int` the cast is undefined: at `time = 3000000000`,
`tini = 0`, `Tstp = 1` the model gives no value. -/
theorem StairsWave_out_of_range : StairsWave 32 (3000000000 : ℚ) 0 1 1 3 = none := by
  have f3 : Int.floor ((3000000000 - 0 : ℚ) / 1) = 3000000000 := by
    rw [Int.floor_eq_iff]; norm_num
  have hr : ¬ (-((2 : Int) ^ (32 - 1)) ≤ truncInt ((3000000000 - 0 : ℚ) / 1) ∧
      truncInt ((3000000000 - 0 : ℚ) / 1) ≤ (2 : Int) ^ (32 - 1) - 1) := by
    rw [truncInt_of_nonneg ((3000000000 - 0 : ℚ) / 1) (by norm_num), f3]
    norm_num
  simp only [StairsWave, castInt, if_neg hr]

/-- C12 (amended): for `Tstp ≠ 0` and a quotient `q = (time - tini) / Tstp` in the range
of the cast to a `w`-bit `int` (`-2^(w-1) - 1 < q < 2^(w-1)`), `StairsWave` returns
`Ystp * n` if `n ≤ Nstp` and `0` otherwise, where `n` is `q` truncated towards zero: its
floor when `q ≥ 0`, its ceiling when `q < 0`; for a 32-bit `int`,
`StairsWave 2.5 0 1 1 3 = 2` and `StairsWave 5 0 1 1 3 = 0`. -/
theorem StairsWave_spec [FloorRing α] (w : Nat) (Time Tini Ystp Tstp Nstp : α)
    (_h : Tstp ≠ 0) (hlo : -((2 : α) ^ (w - 1)) - 1 < (Time - Tini) / Tstp)
    (hhi : (Time - Tini) / Tstp < (2 : α) ^ (w - 1)) :
    (0 ≤ (Time - Tini) / Tstp →
      StairsWave w Time Tini Ystp Tstp Nstp
        = some (if ((Int.floor ((Time - Tini) / Tstp) : Int) : α) ≤ Nstp
          then Ystp * ((Int.floor ((Time - Tini) / Tstp) : Int) : α) else 0)) ∧
    ((Time - Tini) / Tstp < 0 →
      StairsWave w Time Tini Ystp Tstp Nstp
        = some (if ((Int.ceil ((Time - Tini) / Tstp) : Int) : α) ≤ Nstp
          then Ystp * ((Int.ceil ((Time - Tini) / Tstp) : Int) : α) else 0)) ∧
    StairsWave 32 (5 / 2 : α) 0 1 1 3 = some 2 ∧ StairsWave 32 (5 : α) 0 1 1 3 = some 0 := by
  refine ⟨?_, ?_, ?_, ?_⟩
  · intro hq
    simp only [StairsWave, castInt_of_in_range w _ hlo hhi, truncInt_of_nonneg _ hq]
  · intro hq
    simp only [StairsWave, castInt_of_in_range w _ hlo hhi, truncInt_of_neg _ hq]
  · have f2 : Int.floor ((5 / 2 - 0 : α) / 1) = 2 := by
      rw [Int.floor_eq_iff]; norm_num
    simp only [StairsWave,
      castInt_of_in_range 32 ((5 / 2 - 0 : α) / 1) (by norm_num) (by norm_num),
      truncInt_of_nonneg ((5 / 2 - 0 : α) / 1) (by norm_num), f2]
    norm_num
  · have f5 : Int.floor ((5 - 0 : α) / 1) = 5 := by
      rw [Int.floor_eq_iff]; norm_num
    simp only [StairsWave,
      castInt_of_in_range 32 ((5 - 0 : α) / 1) (by norm_num) (by norm_num),
      truncInt_of_nonneg ((5 - 0 : α) / 1) (by norm_num), f5]
    norm_num

/-- Witness of C12 (amended) on a 32-bit `int`, one input per branch: `time = 5/2`
(quotient `≥ 0`, floor) and `time = -1/2` (quotient `< 0`, ceiling), both with `tini = 0`,
`Ystp = 1`, `Tstp = 1`, `Nstp = 3`. -/
theorem StairsWave_spec_witness :
    (1 : ℚ) ≠ 0 ∧
    (-((2 : ℚ) ^ (32 - 1)) - 1 < (5 / 2 - 0) / 1 ∧ (5 / 2 - 0 : ℚ) / 1 < 2 ^ (32 - 1) ∧
      (0 : ℚ) ≤ (5 / 2 - 0) / 1 ∧
      StairsWave 32 (5 / 2 : ℚ) 0 1 1 3
        = some (if ((Int.floor ((5 / 2 - 0 : ℚ) / 1) : Int) : ℚ) ≤ 3
            then 1 * ((Int.floor ((5 / 2 - 0 : ℚ) / 1) : Int) : ℚ) else 0)) ∧
    (-((2 : ℚ) ^ (32 - 1)) - 1 < (-1 / 2 - 0) / 1 ∧ (-1 / 2 - 0 : ℚ) / 1 < 2 ^ (32 - 1) ∧
      (-1 / 2 - 0 : ℚ) / 1 < 0 ∧
      StairsWave 32 (-1 / 2 : ℚ) 0 1 1 3
        = some (if ((Int.ceil ((-1 / 2 - 0 : ℚ) / 1) : Int) : ℚ) ≤ 3
            then 1 * ((Int.ceil ((-1 / 2 - 0 : ℚ) / 1) : Int) : ℚ) else 0)) :=
  ⟨by norm_num,
    ⟨by norm_num, by norm_num, by norm_num,
      (StairsWave_spec 32 (5 / 2 : ℚ) 0 1 1 3 (by norm_num) (by norm_num)
        (by norm_num)).1 (by norm_num)⟩,
    ⟨by norm_num, by norm_num, by norm_num,
      (StairsWave_spec 32 (-1 / 2 : ℚ) 0 1 1 3 (by norm_num) (by norm_num)
        (by norm_num)).2.1 (by norm_num)⟩⟩

/-- C17 fails as stated: with `limit = -1` and `input = 5` the first step gives `-1`, the
second gives `-limit = 1`, so `Limiter1` returns `1`, not `0`. -/
theorem Limiter1_negative_limit_counterexample :
    (-1 : ℚ) < 0 ∧ Limiter1 (5 : ℚ) (-1) = 1 ∧ Limiter1 (5 : ℚ) (-1) ≠ 0 := by
  have h : Limiter1 (5 : ℚ) (-1) = 1 := by
    rw [Limiter1_eq_ite]; norm_num
  refine ⟨by norm_num, h, ?_⟩
  rw [h]; norm_num

/-- C17 (amended): for every `limit < 0` and every input, `Limiter1 input limit` returns
`-limit`, a positive constant, hence never `0`. -/
theorem Limiter1_of_neg_limit (input limit : α) (h : limit < 0) :
    Limiter1 input limit = -limit ∧ 0 < Limiter1 input limit := by
  have e : Limiter1 input limit = -limit := by
    rw [Limiter1_eq_ite]
    by_cases h1 : limit < input
    · rw [if_pos h1, if_pos (by linarith)]
    · rw [if_neg h1, if_pos (by linarith [not_lt.mp h1])]
  rw [e]
  exact ⟨rfl, by linarith⟩

/-- Witness of C17 (amended) at `input = 5`, `limit = -1`. -/
theorem Limiter1_of_neg_limit_witness :
    (-1 : ℚ) < 0 ∧ Limiter1 (5 : ℚ) (-1) = -(-1) :=
  ⟨by norm_num, (Limiter1_of_neg_limit (5 : ℚ) (-1) (by norm_num)).1⟩

/-! ## Differentiator theorems -/

/-- C18: for `2 + Ts*gpd ≠ 0`, `PseudoDiff2 s input gpd` returns
`y = (2*gpd*(input - uZ1) + (2 - Ts*gpd)*yZ1) / (2 + Ts*gpd)`, then `uZ1 = input`,
`yZ1 = y`, `Ts` unchanged; the first call after `InitDiff` returns
`2*gpd*input / (2 + Ts*gpd)`. -/
theorem PseudoDiff2_spec (s : Exp4Diff α) (input gpd : α) (_h : 2 + s.Ts * gpd ≠ 0) :
    (PseudoDiff2 s input gpd).1
      = (2 * gpd * (input - s.uZ1) + (2 - s.Ts * gpd) * s.yZ1) / (2 + s.Ts * gpd) ∧
    (PseudoDiff2 s input gpd).2.uZ1 = input ∧
    (PseudoDiff2 s input gpd).2.yZ1 = (PseudoDiff2 s input gpd).1 ∧
    (PseudoDiff2 s input gpd).2.Ts = s.Ts ∧
    (PseudoDiff2 (InitDiff s s.Ts) input gpd).1 = 2 * gpd * input / (2 + s.Ts * gpd) := by
  refine ⟨rfl, rfl, rfl, rfl, ?_⟩
  simp only [PseudoDiff2, InitDiff, sub_zero, mul_zero, add_zero]

/-- Witness of C18: state `uZ1 = 1`, `yZ1 = 3`, `Ts = 1/2`, input `3`, `gpd = 4`. -/
theorem PseudoDiff2_spec_witness :
    (2 : ℚ) + 1 / 2 * 4 ≠ 0 ∧
    (PseudoDiff2 (⟨1, 3, 1 / 2⟩ : Exp4Diff ℚ) 3 4).1
      = (2 * 4 * (3 - 1) + (2 - 1 / 2 * 4) * 3) / (2 + 1 / 2 * 4) ∧
    (PseudoDiff2 (InitDiff (⟨1, 3, 1 / 2⟩ : Exp4Diff ℚ) (1 / 2)) 3 4).1
      = 2 * 4 * 3 / (2 + 1 / 2 * 4) :=
  ⟨by norm_num, (PseudoDiff2_spec (⟨1, 3, 1 / 2⟩ : Exp4Diff ℚ) 3 4 (by norm_num)).1,
    (PseudoDiff2_spec (⟨1, 3, 1 / 2⟩ : Exp4Diff ℚ) 3 4 (by norm_num)).2.2.2.2⟩

/-- While the counter has not wrapped, `n` calls after initialisation leave `count = n`. -/
theorem TimeCounterRun_count (w : Nat) (Ts : α) (s0 : Exp4TimeCounter α) (n : Nat)
    (hw : n < 2 ^ w) : (TimeCounterRun w Ts n (InitTimeCounter s0)).count = n := by
  induction n with
  | zero => rfl
  | succ n ih =>
    have hn : (TimeCounterRun w Ts n (InitTimeCounter s0)).count = n := ih (by omega)
    show ((TimeCounterRun w Ts n (InitTimeCounter s0)).count + 1) % 2 ^ w = n + 1
    rw [hn, Nat.mod_eq_of_lt hw]

/-- C16: with the counter not wrapping (`n < 2 ^ w`, the counter read as an unbounded
natural number), after `InitTimeCounter` and `n ≥ 1` calls of `GetElapsedTime`,
`count = n` and `time = (n - 1) * Ts`; the first call leaves `time = 0`. -/
theorem TimeCounterRun_spec (w : Nat) (Ts : α) (s0 : Exp4TimeCounter α) (n : Nat)
    (hn : 1 ≤ n) (hw : n < 2 ^ w) :
    (TimeCounterRun w Ts n (InitTimeCounter s0)).count = n ∧
    (TimeCounterRun w Ts n (InitTimeCounter s0)).time = ((n : α) - 1) * Ts ∧
    (TimeCounterRun w Ts 1 (InitTimeCounter s0)).time = 0 := by
  refine ⟨TimeCounterRun_count w Ts s0 n hw, ?_, ?_⟩
  · obtain ⟨m, rfl⟩ : ∃ m, n = m + 1 := ⟨n - 1, by omega⟩
    show ((TimeCounterRun w Ts m (InitTimeCounter s0)).count : α) * Ts = _
    rw [TimeCounterRun_count w Ts s0 m (by omega)]
    push_cast
    ring
  · show ((0 : Nat) : α) * Ts = 0
    simp

/-- Witness of C16: three calls with `Ts = 1/2` on a 64-bit counter. -/
theorem TimeCounterRun_spec_witness :
    1 ≤ 3 ∧ 3 < 2 ^ 64 ∧
    (TimeCounterRun 64 (1 / 2 : ℚ) 3 (InitTimeCounter ⟨9, 9⟩)).count = 3 ∧
    (TimeCounterRun 64 (1 / 2 : ℚ) 3 (InitTimeCounter ⟨9, 9⟩)).time
      = (((3 : Nat) : ℚ) - 1) * (1 / 2) :=
  ⟨by decide, by norm_num,
    (TimeCounterRun_spec 64 (1 / 2 : ℚ) ⟨9, 9⟩ 3 (by decide) (by norm_num)).1,
    (TimeCounterRun_spec 64 (1 / 2 : ℚ) ⟨9, 9⟩ 3 (by decide) (by norm_num)).2.1⟩

/-! ## FRA theorems -/

/-- Before the start time or after the end of the sweep, `FRA_GetSignal` returns the bias
and the current frequency and leaves the record as it is. -/
theorem FRA_GetSignal_of_inactive (cosF : α → α) (PI : α) (fra : Exp4FRA α) (t : α)
    (h : t < fra.Tsta ∨ fra.isEnd = true) :
    FRA_GetSignal cosF PI fra t = (fra.Bu, fra.f, fra) := by
  have hc : ¬ (fra.Tsta ≤ t ∧ fra.isEnd = false) := by
    rintro ⟨h1, h2⟩
    rcases h with h | h
    · exact absurd h1 (not_le.mpr h)
    · rw [h] at h2; exact Bool.noConfusion h2
  simp only [FRA_GetSignal, if_neg hc]

/-- The three possible effects of `FRA_GetSignal` on the record: none, an advance to the
next frequency (only from `f ≤ fmax`, sweep not ended), or the end of the sweep (only
from `f > fmax`, sweep not ended). -/
theorem FRA_GetSignal_state_cases (cosF : α → α) (PI : α) (fra : Exp4FRA α) (t : α) :
    (FRA_GetSignal cosF PI fra t).2.2 = fra ∨
    (fra.isEnd = false ∧ fra.f ≤ fra.fmax ∧
      (FRA_GetSignal cosF PI fra t).2.2
        = { fra with tini := t - fra.Tsta, f := fra.f + fra.fstep }) ∨
    (fra.isEnd = false ∧ fra.fmax < fra.f ∧
      (FRA_GetSignal cosF PI fra t).2.2 = { fra with isEnd := true }) := by
  unfold FRA_GetSignal
  by_cases hc : fra.Tsta ≤ t ∧ fra.isEnd = false
  · rw [if_pos hc]
    by_cases he : fra.Ni / fra.f ≤ t - fra.tini - fra.Tsta
    · by_cases hf : fra.f ≤ fra.fmax
      · right; left
        refine ⟨hc.2, hf, ?_⟩
        simp only [if_pos he, if_pos hf]
      · right; right
        refine ⟨hc.2, not_le.mp hf, ?_⟩
        simp only [if_pos he, if_neg hf]
    · left
      simp only [if_neg he]
  · left
    rw [if_neg hc]

/-- The second component of the result is the frequency stored in the returned record. -/
theorem FRA_GetSignal_out_freq (cosF : α → α) (PI : α) (fra : Exp4FRA α) (t : α) :
    (FRA_GetSignal cosF PI fra t).2.1 = (FRA_GetSignal cosF PI fra t).2.2.f := by
  unfold FRA_GetSignal
  split_ifs <;> rfl

/-- A property kept by every `FRA_GetSignal` call holds after any sequence of calls. -/
theorem FRA_Run_invariant (cosF : α → α) (PI : α) (P : Exp4FRA α → Prop)
    (hstep : ∀ s t, P s → P (FRA_GetSignal cosF PI s t).2.2) :
    ∀ (ts : List α) (s : Exp4FRA α), P s → P (FRA_Run cosF PI s ts) := by
  intro ts
  induction ts with
  | nil => intro s hs; exact hs
  | cons t ts ih => intro s hs; exact ih _ (hstep s t hs)

/-- Running over a concatenation of call times is running twice. -/
theorem FRA_Run_append (cosF : α → α) (PI : α) (ts1 ts2 : List α) :
    ∀ s : Exp4FRA α,
      FRA_Run cosF PI s (ts1 ++ ts2) = FRA_Run cosF PI (FRA_Run cosF PI s ts1) ts2 := by
  induction ts1 with
  | nil => intro s; rfl
  | cons t ts ih => intro s; exact ih _

/-- C13: sweeping step. With `isEnd = false`, `f > 0`, `t ≥ Tsta` and
`e = t - tini - Tsta`, the signal is `Au*cos(2*PI*f*e) + Bu` with the pre-call `f`; if
`e < Ni/f` the record is unchanged; if `e ≥ Ni/f` and `f ≤ fmax` then `tini = t - Tsta`
and `f = f + fstep`; if `e ≥ Ni/f` and `f > fmax` then `isEnd = true` with `f`, `tini`
unchanged; `out_freq` is the post-call `f`. After `FRA_Init 1 3 1 2 1 0 0` a call at any
`t < 2` reports `f = 1`, a call at `t = 2` reports `f = 2`. -/
theorem FRA_GetSignal_sweeping (cosF : α → α) (PI : α) (fra : Exp4FRA α) (t : α)
    (hEnd : fra.isEnd = false) (_hf : 0 < fra.f) (ht : fra.Tsta ≤ t) :
    (FRA_GetSignal cosF PI fra t).1
      = fra.Au * cosF (2 * PI * fra.f * (t - fra.tini - fra.Tsta)) + fra.Bu ∧
    (t - fra.tini - fra.Tsta < fra.Ni / fra.f → (FRA_GetSignal cosF PI fra t).2.2 = fra) ∧
    (fra.Ni / fra.f ≤ t - fra.tini - fra.Tsta → fra.f ≤ fra.fmax →
      (FRA_GetSignal cosF PI fra t).2.2
        = { fra with tini := t - fra.Tsta, f := fra.f + fra.fstep }) ∧
    (fra.Ni / fra.f ≤ t - fra.tini - fra.Tsta → fra.fmax < fra.f →
      (FRA_GetSignal cosF PI fra t).2.2 = { fra with isEnd := true }) ∧
    (FRA_GetSignal cosF PI fra t).2.1 = (FRA_GetSignal cosF PI fra t).2.2.f ∧
    (∀ t1 : α, t1 < 2 → (FRA_GetSignal cosF PI (FRA_Init fra 1 3 1 2 1 0 0) t1).2.1 = 1) ∧
    (FRA_GetSignal cosF PI (FRA_Init fra 1 3 1 2 1 0 0) 2).2.1 = 2 := by
  have hc : fra.Tsta ≤ t ∧ fra.isEnd = false := ⟨ht, hEnd⟩
  refine ⟨?_, ?_, ?_, ?_, FRA_GetSignal_out_freq cosF PI fra t, ?_, ?_⟩
  · simp only [FRA_GetSignal, if_pos hc]
    split_ifs <;> rfl
  · intro he
    simp only [FRA_GetSignal, if_pos hc, if_neg (not_le.mpr he)]
  · intro he hf
    simp only [FRA_GetSignal, if_pos hc, if_pos he, if_pos hf]
  · intro he hf
    simp only [FRA_GetSignal, if_pos hc, if_pos he, if_neg (not_le.mpr hf)]
  · intro t1 h1
    simp only [FRA_GetSignal, FRA_Init]
    split_ifs with a b c
    · exfalso
      norm_num at b
      linarith
    · exfalso
      norm_num at b
      linarith
    · rfl
    · rfl
  · simp only [FRA_GetSignal, FRA_Init]
    norm_num

/-- Witness of C13: the state after `FRA_Init 1 3 1 2 1 0 0`, called at `t = 2`. -/
theorem FRA_GetSignal_sweeping_witness :
    (FRA_Init (⟨9, 9, 9, 9, 9, 9, 9, true, 9, 9⟩ : Exp4FRA ℚ) 1 3 1 2 1 0 0).isEnd = false ∧
    0 < (FRA_Init (⟨9, 9, 9, 9, 9, 9, 9, true, 9, 9⟩ : Exp4FRA ℚ) 1 3 1 2 1 0 0).f ∧
    (FRA_Init (⟨9, 9, 9, 9, 9, 9, 9, true, 9, 9⟩ : Exp4FRA ℚ) 1 3 1 2 1 0 0).Tsta ≤ 2 ∧
    (FRA_GetSignal (fun _ => 1) 3
      (FRA_Init (⟨9, 9, 9, 9, 9, 9, 9, true, 9, 9⟩ : Exp4FRA ℚ) 1 3 1 2 1 0 0) 2).2.1
      = (FRA_GetSignal (fun _ => 1) 3
          (FRA_Init (⟨9, 9, 9, 9, 9, 9, 9, true, 9, 9⟩ : Exp4FRA ℚ) 1 3 1 2 1 0 0) 2).2.2.f :=
  ⟨rfl, by norm_num [FRA_Init], by norm_num [FRA_Init],
    (FRA_GetSignal_sweeping (fun _ => 1) 3
      (FRA_Init (⟨9, 9, 9, 9, 9, 9, 9, true, 9, 9⟩ : Exp4FRA ℚ) 1 3 1 2 1 0 0) 2 rfl
      (by norm_num [FRA_Init]) (by norm_num [FRA_Init])).2.2.2.2.1⟩

/-- A call to `FRA_GetSignal` never changes `fmax` or `fstep`. -/
theorem FRA_GetSignal_params (cosF : α → α) (PI : α) (fra : Exp4FRA α) (t : α) :
    (FRA_GetSignal cosF PI fra t).2.2.fmax = fra.fmax ∧
    (FRA_GetSignal cosF PI fra t).2.2.fstep = fra.fstep := by
  rcases FRA_GetSignal_state_cases cosF PI fra t with h | ⟨_, _, h⟩ | ⟨_, _, h⟩ <;>
    rw [h] <;> exact ⟨rfl, rfl⟩

/-- With `fstep ≥ 0`, a call to `FRA_GetSignal` does not lower `f`. -/
theorem FRA_GetSignal_f_le (cosF : α → α) (PI : α) (fra : Exp4FRA α) (t : α)
    (h : 0 ≤ fra.fstep) : fra.f ≤ (FRA_GetSignal cosF PI fra t).2.2.f := by
  rcases FRA_GetSignal_state_cases cosF PI fra t with e | ⟨_, _, e⟩ | ⟨_, _, e⟩
  · rw [e]
  · rw [e]
    show fra.f ≤ fra.f + fra.fstep
    linarith
  · rw [e]

/-- With `fstep ≥ 0`, no sequence of `FRA_GetSignal` calls lowers `f`. -/
theorem FRA_Run_f_le (cosF : α → α) (PI : α) (fra : Exp4FRA α) (ts : List α)
    (h : 0 ≤ fra.fstep) : fra.f ≤ (FRA_Run cosF PI fra ts).f := by
  have key := FRA_Run_invariant cosF PI (fun s => s.fstep = fra.fstep ∧ fra.f ≤ s.f)
    (fun s t hs => by
      refine ⟨(FRA_GetSignal_params cosF PI s t).2.trans hs.1, ?_⟩
      exact le_trans hs.2 (FRA_GetSignal_f_le cosF PI s t (by rw [hs.1]; exact h)))
    ts fra ⟨rfl, le_refl _⟩
  exact key.2

/-- No sequence of `FRA_GetSignal` calls changes `fstep`. -/
theorem FRA_Run_fstep (cosF : α → α) (PI : α) (fra : Exp4FRA α) (ts : List α) :
    (FRA_Run cosF PI fra ts).fstep = fra.fstep :=
  FRA_Run_invariant cosF PI (fun s => s.fstep = fra.fstep)
    (fun s t hs => (FRA_GetSignal_params cosF PI s t).2.trans hs) ts fra rfl

/-- C14: inactive step and sticky termination. If `t < Tsta` or `isEnd` is true,
`FRA_GetSignal` returns exactly `Bu`, reports `out_freq = f` and leaves the record
unchanged; once `isEnd` is true, after any sequence of calls the record is the same,
`isEnd` is still true and every output is `Bu`. -/
theorem FRA_GetSignal_inactive_sticky (cosF : α → α) (PI : α) (fra : Exp4FRA α) (t : α)
    (h : t < fra.Tsta ∨ fra.isEnd = true) :
    FRA_GetSignal cosF PI fra t = (fra.Bu, fra.f, fra) ∧
    (fra.isEnd = true → ∀ ts : List α,
      FRA_Run cosF PI fra ts = fra ∧ (FRA_Run cosF PI fra ts).isEnd = true ∧
      FRA_Outputs cosF PI fra ts = List.replicate ts.length fra.Bu) := by
  refine ⟨FRA_GetSignal_of_inactive cosF PI fra t h, ?_⟩
  intro hEnd ts
  induction ts with
  | nil => exact ⟨rfl, hEnd, rfl⟩
  | cons t1 ts ih =>
    have e := FRA_GetSignal_of_inactive cosF PI fra t1 (Or.inr hEnd)
    simp only [FRA_Run, FRA_Outputs, e, List.length_cons, List.replicate_succ]
    exact ⟨ih.1, ih.2.1, by rw [ih.2.2]⟩

/-- Witness of C14: an ended generator with `Bu = 5`, `f = 4`, called at `10` and then
at `0`, `20`, `3`. -/
theorem FRA_GetSignal_inactive_sticky_witness :
    ((10 : ℚ) < 0 ∨ (⟨1, 3, 1, 2, 1, 5, 0, true, 4, 6⟩ : Exp4FRA ℚ).isEnd = true) ∧
    FRA_GetSignal (fun _ => 1) 3 (⟨1, 3, 1, 2, 1, 5, 0, true, 4, 6⟩ : Exp4FRA ℚ) 10
      = (5, 4, ⟨1, 3, 1, 2, 1, 5, 0, true, 4, 6⟩) ∧
    FRA_Outputs (fun _ => 1) 3 (⟨1, 3, 1, 2, 1, 5, 0, true, 4, 6⟩ : Exp4FRA ℚ) [0, 20, 3]
      = [5, 5, 5] :=
  ⟨Or.inr rfl,
    (FRA_GetSignal_inactive_sticky (fun _ => 1) 3
      (⟨1, 3, 1, 2, 1, 5, 0, true, 4, 6⟩ : Exp4FRA ℚ) 10 (Or.inr rfl)).1,
    ((FRA_GetSignal_inactive_sticky (fun _ => 1) 3
      (⟨1, 3, 1, 2, 1, 5, 0, true, 4, 6⟩ : Exp4FRA ℚ) 10 (Or.inr rfl)).2 rfl [0, 20, 3]).2.2⟩

/-- C15: frequency monotonicity. With `fstep ≥ 0` the value of `f` after
`FRA_GetSignal` is `≥` its value before; along any call sequence from `FRA_Init` with
`FreqStep ≥ 0`, `f` is non-decreasing (a longer run never has a smaller `f`) and always
`≥ FreqMin`. -/
theorem FRA_f_monotone (cosF : α → α) (PI : α) (fra : Exp4FRA α) (t : α) (fra0 : Exp4FRA α)
    (FreqMin FreqMax FreqStep NumIntg Ampl Bias TimeSta : α) (ts1 ts2 : List α) :
    (0 ≤ fra.fstep → fra.f ≤ (FRA_GetSignal cosF PI fra t).2.2.f) ∧
    (0 ≤ FreqStep →
      (FRA_Run cosF PI
          (FRA_Init fra0 FreqMin FreqMax FreqStep NumIntg Ampl Bias TimeSta) ts1).f
        ≤ (FRA_Run cosF PI
          (FRA_Init fra0 FreqMin FreqMax FreqStep NumIntg Ampl Bias TimeSta) (ts1 ++ ts2)).f ∧
      FreqMin ≤ (FRA_Run cosF PI
          (FRA_Init fra0 FreqMin FreqMax FreqStep NumIntg Ampl Bias TimeSta) ts1).f) := by
  refine ⟨FRA_GetSignal_f_le cosF PI fra t, ?_⟩
  intro h
  constructor
  · rw [FRA_Run_append]
    apply FRA_Run_f_le
    rw [FRA_Run_fstep]
    exact h
  · exact FRA_Run_f_le cosF PI
      (FRA_Init fra0 FreqMin FreqMax FreqStep NumIntg Ampl Bias TimeSta) ts1 h

/-- Witness of C15: the sweep `FRA_Init 1 3 1 2 1 0 0`, called at `2` and then at `4`. -/
theorem FRA_f_monotone_witness :
    (0 : ℚ) ≤ 1 ∧
    (FRA_Run (fun _ => 1) 3
        (FRA_Init (⟨9, 9, 9, 9, 9, 9, 9, true, 9, 9⟩ : Exp4FRA ℚ) 1 3 1 2 1 0 0) [2]).f
      ≤ (FRA_Run (fun _ => 1) 3
        (FRA_Init (⟨9, 9, 9, 9, 9, 9, 9, true, 9, 9⟩ : Exp4FRA ℚ) 1 3 1 2 1 0 0)
          ([2] ++ [4])).f ∧
    (1 : ℚ) ≤ (FRA_Run (fun _ => 1) 3
        (FRA_Init (⟨9, 9, 9, 9, 9, 9, 9, true, 9, 9⟩ : Exp4FRA ℚ) 1 3 1 2 1 0 0) [2]).f :=
  ⟨by norm_num,
    (FRA_f_monotone (fun _ => 1) 3 (⟨9, 9, 9, 9, 9, 9, 9, true, 9, 9⟩ : Exp4FRA ℚ) 0
      (⟨9, 9, 9, 9, 9, 9, 9, true, 9, 9⟩ : Exp4FRA ℚ) 1 3 1 2 1 0 0 [2] [4]).2
      (by norm_num)⟩

/-- C19: the sweep ends above `fmax`. In every state reached from `FRA_Init` by a
sequence of `FRA_GetSignal` calls, `isEnd = true` implies `f > fmax`; and when
`fstep ≥ 0` and `fmin ≤ fmax`, every reached state has `f ≤ fmax + fstep`. -/
theorem FRA_end_overshoots (cosF : α → α) (PI : α) (fra0 : Exp4FRA α)
    (FreqMin FreqMax FreqStep NumIntg Ampl Bias TimeSta : α) (ts : List α) :
    ((FRA_Run cosF PI
        (FRA_Init fra0 FreqMin FreqMax FreqStep NumIntg Ampl Bias TimeSta) ts).isEnd = true →
      FreqMax < (FRA_Run cosF PI
        (FRA_Init fra0 FreqMin FreqMax FreqStep NumIntg Ampl Bias TimeSta) ts).f) ∧
    (0 ≤ FreqStep → FreqMin ≤ FreqMax →
      (FRA_Run cosF PI
        (FRA_Init fra0 FreqMin FreqMax FreqStep NumIntg Ampl Bias TimeSta) ts).f
        ≤ FreqMax + FreqStep) := by
  constructor
  · have key := FRA_Run_invariant cosF PI
      (fun s => s.fmax = FreqMax ∧ (s.isEnd = true → FreqMax < s.f))
      (fun s t hs => by
        refine ⟨(FRA_GetSignal_params cosF PI s t).1.trans hs.1, ?_⟩
        rcases FRA_GetSignal_state_cases cosF PI s t with e | ⟨h1, _, e⟩ | ⟨_, h2, e⟩
        · rw [e]; exact hs.2
        · rw [e]
          intro hE
          rw [h1] at hE
          exact Bool.noConfusion hE
        · rw [e]
          intro _
          rw [← hs.1]
          exact h2)
      ts (FRA_Init fra0 FreqMin FreqMax FreqStep NumIntg Ampl Bias TimeSta)
      ⟨rfl, fun hE => Bool.noConfusion hE⟩
    exact key.2
  · intro hstep hle
    have key := FRA_Run_invariant cosF PI
      (fun s => s.fmax = FreqMax ∧ s.fstep = FreqStep ∧ s.f ≤ FreqMax + FreqStep)
      (fun s t hs => by
        refine ⟨(FRA_GetSignal_params cosF PI s t).1.trans hs.1,
          (FRA_GetSignal_params cosF PI s t).2.trans hs.2.1, ?_⟩
        rcases FRA_GetSignal_state_cases cosF PI s t with e | ⟨_, h1, e⟩ | ⟨_, _, e⟩
        · rw [e]; exact hs.2.2
        · rw [e]
          show s.f + s.fstep ≤ FreqMax + FreqStep
          rw [hs.1] at h1
          rw [hs.2.1]
          linarith
        · rw [e]; exact hs.2.2)
      ts (FRA_Init fra0 FreqMin FreqMax FreqStep NumIntg Ampl Bias TimeSta)
      ⟨rfl, rfl, by show FreqMin ≤ FreqMax + FreqStep; linarith⟩
    exact key.2.2

/-- The sweep `FRA_Init 1 3 1 2 1 0 0` called at `2, 4, 6, 8`: `f` goes `1, 2, 3, 4` and
the fourth call, finding `f = 4 > fmax = 3`, ends the sweep. -/
theorem FRA_Run_example :
    FRA_Run (fun _ => 1) 3
      (FRA_Init (⟨9, 9, 9, 9, 9, 9, 9, true, 9, 9⟩ : Exp4FRA ℚ) 1 3 1 2 1 0 0) [2, 4, 6, 8]
      = ⟨1, 3, 1, 2, 1, 0, 0, true, 4, 6⟩ := by
  simp only [FRA_Run, FRA_GetSignal, FRA_Init]
  norm_num

/-- Witness of C19: after the calls at `2, 4, 6, 8` the sweep `FRA_Init 1 3 1 2 1 0 0`
has ended with `f = 4`, above `fmax = 3` and at most `fmax + fstep = 4`. -/
theorem FRA_end_overshoots_witness :
    (FRA_Run (fun _ => 1) 3
      (FRA_Init (⟨9, 9, 9, 9, 9, 9, 9, true, 9, 9⟩ : Exp4FRA ℚ) 1 3 1 2 1 0 0)
      [2, 4, 6, 8]).isEnd = true ∧
    (3 : ℚ) < (FRA_Run (fun _ => 1) 3
      (FRA_Init (⟨9, 9, 9, 9, 9, 9, 9, true, 9, 9⟩ : Exp4FRA ℚ) 1 3 1 2 1 0 0)
      [2, 4, 6, 8]).f ∧
    (0 : ℚ) ≤ 1 ∧ (1 : ℚ) ≤ 3 ∧
    (FRA_Run (fun _ => 1) 3
      (FRA_Init (⟨9, 9, 9, 9, 9, 9, 9, true, 9, 9⟩ : Exp4FRA ℚ) 1 3 1 2 1 0 0)
      [2, 4, 6, 8]).f ≤ 3 + 1 :=
  ⟨by rw [FRA_Run_example],
    (FRA_end_overshoots (fun _ => 1) 3 (⟨9, 9, 9, 9, 9, 9, 9, true, 9, 9⟩ : Exp4FRA ℚ)
      1 3 1 2 1 0 0 [2, 4, 6, 8]).1 (by rw [FRA_Run_example]),
    by norm_num, by norm_num,
    (FRA_end_overshoots (fun _ => 1) 3 (⟨9, 9, 9, 9, 9, 9, 9, true, 9, 9⟩ : Exp4FRA ℚ)
      1 3 1 2 1 0 0 [2, 4, 6, 8]).2 (by norm_num) (by norm_num)⟩

end Expert4Control
